import Mathlib

/-!
Verification of the cricket-prediction bot core (`bot.ts` / `db.ts`, in both the
baseline and the advanced variant). The TypeScript functions are embedded
shallowly: pure helpers become Lean functions over `List Char` / `Int`, the
SQLite-backed store becomes lists of rows, and the command handlers become
state-transition functions on a `BotState`.
-/

namespace TPF

/-- JavaScript whitespace recognised by `String.prototype.trim` (the subset
relevant here: space, tab, LF, VT, FF, CR, NBSP, BOM). -/
def isJsWhitespace (c : Char) : Bool :=
  c = ' ' || c = '\t' || c = '\n' || c.toNat = 11 || c.toNat = 12 || c = '\r' ||
  c.toNat = 160 || c.toNat = 65279

/-- JS `s.trim()`: drop leading and trailing whitespace. -/
def jsTrim (cs : List Char) : List Char :=
  ((cs.dropWhile isJsWhitespace).reverse.dropWhile isJsWhitespace).reverse

def isDigitChar (c : Char) : Bool := '0' ≤ c && c ≤ '9'

/-- JS `parseInt(s, 10)`: skip leading whitespace, read an optional sign, then
the longest run of decimal digits; `NaN` (here `none`) when that run is empty,
otherwise the signed value of the digits (trailing garbage is ignored). -/
def jsParseInt10 (cs : List Char) : Option Int :=
  let cs1 := cs.dropWhile isJsWhitespace
  let sign : Int := match cs1 with
    | '-' :: _ => -1
    | _ => 1
  let cs2 : List Char := match cs1 with
    | '-' :: rest => rest
    | '+' :: rest => rest
    | rest => rest
  let digits := cs2.takeWhile isDigitChar
  if digits.isEmpty then none
  else some (sign * (digits.foldl (fun acc c => acc * 10 + (c.toNat - '0'.toNat)) 0 : Nat))

/-- JS `s.split('/')`: split on every occurrence of the separator, keeping
empty segments (so `"".split` is `[""]` and `"a//b".split` is `["a","","b"]`). -/
def splitOnSlash : List Char → List (List Char)
  | [] => [[]]
  | c :: cs =>
    match splitOnSlash cs with
    | [] => if c = '/' then [[], []] else [[c]]
    | r :: rs => if c = '/' then [] :: r :: rs else (c :: r) :: rs

/-- A parsed score, as in the `Score` interface of `bot.ts`. -/
structure Score where
  runs : Int
  wickets : Int
deriving DecidableEq, Repr

/-- `parseScore` from `bot.ts`: split on `/`, require exactly two parts, trim
and `parseInt` each, fail (`null`) if either is `NaN`. -/
def parseScore (s : String) : Option Score :=
  match splitOnSlash s.toList with
  | [p1, p2] =>
    match jsParseInt10 (jsTrim p1), jsParseInt10 (jsTrim p2) with
    | some runs, some wickets => some ⟨runs, wickets⟩
    | _, _ => none
  | _ => none

/-- `scoreDifference` of the baseline variant: absolute runs difference. -/
def scoreDifference (pred actual : Score) : Int :=
  |pred.runs - actual.runs|

/-- `scoreDifference` of the advanced variant:
`|runs difference| + 5 * |wickets difference|`. -/
def scoreDifferenceAdv (pred actual : Score) : Int :=
  |pred.runs - actual.runs| + 5 * |pred.wickets - actual.wickets|

/-- A row of the `matches` table (`db.ts`). `isOpen` is stored as 0/1 in
SQLite, modelled as `Bool`; the actual score columns are nullable. -/
structure MatchRow where
  id : String
  teamName : String
  toss : String
  venue : String
  matchDate : String
  isOpen : Bool
  actualRuns : Option Int
  actualWickets : Option Int
deriving DecidableEq, Repr

/-- A row of the `predictions` table, keyed by `(matchId, userId)`. The
baseline variant has no `comment` column; it is modelled as the empty string
there, matching the advanced variant's `|| ''` default. -/
structure PredictionRow where
  matchId : String
  userId : String
  username : String
  runs : Int
  wickets : Int
  comment : String
deriving DecidableEq, Repr

/-- The relational store: the two tables, each as a list of rows in insertion
order (SQLite enumerates them in rowid order for these queries). -/
structure DB where
  matchRows : List MatchRow
  predictions : List PredictionRow
deriving DecidableEq, Repr

/-- The argument of `updateMatch`: an id plus optional new values; `none`
means the corresponding `COALESCE(@field, field)` keeps the stored value. -/
structure MatchPatch where
  id : String
  isOpen : Option Bool
  actualRuns : Option Int
  actualWickets : Option Int
  teamName : Option String
  toss : Option String
  venue : Option String
  matchDate : Option String
deriving Repr

/-- The effect of `updateMatch`'s `UPDATE ... COALESCE ... WHERE id = @id` on
one row. -/
def applyPatch (p : MatchPatch) (m : MatchRow) : MatchRow :=
  if m.id = p.id then
    { m with
      isOpen := p.isOpen.getD m.isOpen
      actualRuns := (p.actualRuns.map some).getD m.actualRuns
      actualWickets := (p.actualWickets.map some).getD m.actualWickets
      teamName := p.teamName.getD m.teamName
      toss := p.toss.getD m.toss
      venue := p.venue.getD m.venue
      matchDate := p.matchDate.getD m.matchDate }
  else m

/-- `updateMatch` over the whole table. -/
def updateMatch (p : MatchPatch) (ms : List MatchRow) : List MatchRow :=
  ms.map (applyPatch p)

/-- `insertMatch`: INSERT a fresh row (no actual score yet). -/
def insertMatch (id teamName toss venue matchDate : String) (isOpen : Bool)
    (ms : List MatchRow) : List MatchRow :=
  ms ++ [⟨id, teamName, toss, venue, matchDate, isOpen, none, none⟩]

/-- Whether two prediction rows collide on the `(matchId, userId)` primary
key. -/
def sameKey (p q : PredictionRow) : Bool :=
  p.matchId = q.matchId && p.userId = q.userId

/-- The `DO UPDATE SET username = excluded.username, runs = excluded.runs,
wickets = excluded.wickets, comment = excluded.comment` effect on one stored
row: rows sharing the submitted key take the new non-key fields, others are
untouched. -/
def overwriteWith (p q : PredictionRow) : PredictionRow :=
  if sameKey q p then
    { q with username := p.username, runs := p.runs, wickets := p.wickets,
             comment := p.comment }
  else q

/-- `insertOrUpdatePrediction`: `INSERT ... ON CONFLICT(matchId, userId) DO
UPDATE` — on a key collision the existing row is overwritten in place,
otherwise the row is appended. -/
def insertOrUpdatePrediction (p : PredictionRow) (preds : List PredictionRow) :
    List PredictionRow :=
  if preds.any (fun q => sameKey q p) then preds.map (overwriteWith p)
  else preds ++ [p]

/-- `getPredictionsForMatch`: `SELECT * FROM predictions WHERE matchId = ?`. -/
def getPredictionsForMatch (matchId : String) (preds : List PredictionRow) :
    List PredictionRow :=
  preds.filter (fun p => p.matchId = matchId)

/-- `getMatchDetails`: look the match up by id, `null` when absent, else the
row together with its predictions. -/
def getMatchDetails (matchId : String) (db : DB) :
    Option (MatchRow × List PredictionRow) :=
  match db.matchRows.find? (fun m => m.id = matchId) with
  | none => none
  | some m => some (m, getPredictionsForMatch matchId db.predictions)

/-- `deleteMatch` (advanced variant): delete the match's predictions, then the
match row itself. -/
def deleteMatch (matchId : String) (db : DB) : DB :=
  ⟨db.matchRows.filter (fun m => !(m.id = matchId)),
   db.predictions.filter (fun p => !(p.matchId = matchId))⟩

/-- The distance the `end` handler computes for one stored prediction:
`scoreDifference({runs: pred.runs, wickets: pred.wickets}, actualScore)`. -/
def predDiff (f : Score → Score → Int) (actual : Score) (p : PredictionRow) : Int :=
  f ⟨p.runs, p.wickets⟩ actual

/-- The winner-selection loop of the `end` handler: `winner = null`,
`bestDiff = Infinity` (modelled as `none`), and each prediction replaces the
current best exactly when its distance is strictly smaller. -/
def winnerFold (f : Score → Score → Int) (actual : Score) :
    List PredictionRow → Option PredictionRow × Option Int →
    Option PredictionRow × Option Int
  | [], acc => acc
  | p :: ps, (winner, best) =>
    let d := predDiff f actual p
    match best with
    | none => winnerFold f actual ps (some p, some d)
    | some b =>
      if d < b then winnerFold f actual ps (some p, some d)
      else winnerFold f actual ps (winner, some b)

/-- Winner resolution: the loop's final `winner` value (`null` when the
prediction list is empty, which `end` reports as "No predictions were made"). -/
def findWinner (f : Score → Score → Int) (actual : Score)
    (preds : List PredictionRow) : Option PredictionRow :=
  (winnerFold f actual preds (none, none)).1

/-- The in-memory process state: the store plus the process-wide
`currentMatch` pointer. -/
structure BotState where
  db : DB
  currentMatch : Option String
deriving DecidableEq, Repr

/-- Process start: empty store, no current match. -/
def initialState : BotState := ⟨⟨[], []⟩, none⟩

/-- The user-visible outcome of one command invocation (reply text itself is
rendering and out of scope; outcomes are distinguished by which branch of the
handler replied). -/
inductive Outcome where
  | unauthorized
  | alreadyActive
  | noActiveMatch
  | invalidScoreFormat
  | matchCreated (id : String)
  | predictionSaved
  | pollClosed
  | matchEnded (winner : Option PredictionRow)
  | matchEdited
  | matchCancelled
deriving DecidableEq, Repr

/-- The `setup` handler: admin-only; rejected with "A match is already
running" when `currentMatch` is set; otherwise inserts an open match and makes
it current. The fresh id (`Date.now().toString()` in the source) is passed in
as a parameter. -/
def setup (admin : Bool) (id teamName toss venue matchDate : String)
    (s : BotState) : Outcome × BotState :=
  if !admin then (.unauthorized, s)
  else match s.currentMatch with
  | some _ => (.alreadyActive, s)
  | none =>
    (.matchCreated id,
     ⟨⟨insertMatch id teamName toss venue matchDate true s.db.matchRows,
       s.db.predictions⟩, some id⟩)

/-- The `predict` handler: gated only on `currentMatch` existing; parses the
score text, rejects on `null`, otherwise upserts the prediction. The comment
defaults to the empty string (`getString('comment') || ''`). -/
def predict (userId username scoreStr comment : String) (s : BotState) :
    Outcome × BotState :=
  match s.currentMatch with
  | none => (.noActiveMatch, s)
  | some mid =>
    match parseScore scoreStr with
    | none => (.invalidScoreFormat, s)
    | some score =>
      (.predictionSaved,
       ⟨⟨s.db.matchRows,
         insertOrUpdatePrediction
           ⟨mid, userId, username, score.runs, score.wickets, comment⟩
           s.db.predictions⟩, s.currentMatch⟩)

/-- The `edit` handler, transcribed from its own `case 'edit'` branch: gate on
`currentMatch`, parse, upsert — identical to `predict` up to reply text. -/
def editPrediction (userId username scoreStr comment : String) (s : BotState) :
    Outcome × BotState :=
  match s.currentMatch with
  | none => (.noActiveMatch, s)
  | some mid =>
    match parseScore scoreStr with
    | none => (.invalidScoreFormat, s)
    | some score =>
      (.predictionSaved,
       ⟨⟨s.db.matchRows,
         insertOrUpdatePrediction
           ⟨mid, userId, username, score.runs, score.wickets, comment⟩
           s.db.predictions⟩, s.currentMatch⟩)

/-- The `close` handler: admin-only, requires a current match, and runs
`updateMatch({id, isOpen: false})` — nothing else changes and the pointer is
kept. -/
def close (admin : Bool) (s : BotState) : Outcome × BotState :=
  if !admin then (.unauthorized, s)
  else match s.currentMatch with
  | none => (.noActiveMatch, s)
  | some mid =>
    (.pollClosed,
     ⟨⟨updateMatch ⟨mid, some false, none, none, none, none, none, none⟩
         s.db.matchRows, s.db.predictions⟩, s.currentMatch⟩)

/-- The `end` handler: admin-only, requires a current match, parses the actual
score (rejecting with the invalid-format reply and no state change on `null`),
persists `isOpen = false` plus the actual score, runs the winner loop over the
match's predictions, and clears `currentMatch`. -/
def endMatch (admin : Bool) (scoreStr : String) (s : BotState) :
    Outcome × BotState :=
  if !admin then (.unauthorized, s)
  else match s.currentMatch with
  | none => (.noActiveMatch, s)
  | some mid =>
    match parseScore scoreStr with
    | none => (.invalidScoreFormat, s)
    | some actual =>
      let matches1 := updateMatch
        ⟨mid, some false, some actual.runs, some actual.wickets,
         none, none, none, none⟩ s.db.matchRows
      let preds := getPredictionsForMatch mid s.db.predictions
      (.matchEnded (findWinner scoreDifferenceAdv actual preds),
       ⟨⟨matches1, s.db.predictions⟩, none⟩)

/-- `t || undefined` applied to an optional string option: both `null` and the
empty string become `undefined` (patch field absent). -/
def normOpt (o : Option String) : Option String :=
  match o with
  | some t => if t = "" then none else some t
  | none => none

/-- The `editmatch` handler (advanced variant): admin-only, requires a current
match, and patches only the descriptive fields. -/
def editmatch (admin : Bool) (team toss venue date : Option String)
    (s : BotState) : Outcome × BotState :=
  if !admin then (.unauthorized, s)
  else match s.currentMatch with
  | none => (.noActiveMatch, s)
  | some mid =>
    (.matchEdited,
     ⟨⟨updateMatch
         ⟨mid, none, none, none, normOpt team, normOpt toss, normOpt venue,
          normOpt date⟩ s.db.matchRows, s.db.predictions⟩, s.currentMatch⟩)

/-- The `cancelmatch` handler (advanced variant): admin-only, requires a
current match, deletes the match and its predictions, clears the pointer. -/
def cancelmatch (admin : Bool) (s : BotState) : Outcome × BotState :=
  if !admin then (.unauthorized, s)
  else match s.currentMatch with
  | none => (.noActiveMatch, s)
  | some mid => (.matchCancelled, ⟨deleteMatch mid s.db, none⟩)

/-- One state-changing command, with the data the dispatcher supplies. -/
inductive Command where
  | setupCmd (admin : Bool) (id team toss venue date : String)
  | predictCmd (userId username scoreStr comment : String)
  | editCmd (userId username scoreStr comment : String)
  | closeCmd (admin : Bool)
  | endCmd (admin : Bool) (scoreStr : String)
  | editmatchCmd (admin : Bool) (team toss venue date : Option String)
  | cancelCmd (admin : Bool)
deriving Repr

/-- The state after one command (read-only commands — list, past, details,
mystats, leaderboard, export, help — never write and are omitted). -/
def step (s : BotState) : Command → BotState
  | .setupCmd a id t ts v d => (setup a id t ts v d s).2
  | .predictCmd u un txt c => (predict u un txt c s).2
  | .editCmd u un txt c => (editPrediction u un txt c s).2
  | .closeCmd a => (close a s).2
  | .endCmd a txt => (endMatch a txt s).2
  | .editmatchCmd a t ts v d => (editmatch a t ts v d s).2
  | .cancelCmd a => (cancelmatch a s).2

/-- Run a command list from a given state. -/
def execList (s : BotState) (cs : List Command) : BotState := cs.foldl step s

/-- Run a command list from process start. -/
def execAll (cs : List Command) : BotState := execList initialState cs

/-- How many matches are currently flagged open. -/
def openCount (s : BotState) : Nat :=
  (s.db.matchRows.filter (fun m => m.isOpen)).length

/-- The commands that clear the `currentMatch` pointer (`end`/`cancel`). -/
def clearsPointer : Command → Bool
  | .endCmd _ _ => true
  | .cancelCmd _ => true
  | _ => false

/-- The first-minimum recursion the winner loop implements once a candidate is
held: a later prediction displaces the current best only when its distance is
strictly smaller. -/
def firstMin (f : Score → Score → Int) (actual : Score) :
    PredictionRow → List PredictionRow → PredictionRow
  | w, [] => w
  | w, p :: ps =>
    if predDiff f actual p < predDiff f actual w then firstMin f actual p ps
    else firstMin f actual w ps

/-- The registry after a sequence of submissions, starting from an empty
predictions table. -/
def registryAfter (subs : List PredictionRow) : List PredictionRow :=
  subs.foldl (fun acc p => insertOrUpdatePrediction p acc) []

/-- No two rows of the list collide on the `(matchId, userId)` key. -/
def keyNodup (preds : List PredictionRow) : Prop :=
  preds.Pairwise (fun p q => sameKey p q = false)

/-- How many rows of a match table are flagged open. -/
def openCountList (ms : List MatchRow) : Nat :=
  (ms.filter (fun m => m.isOpen)).length

/-- The inductive invariant: at most one open match, and every open match is
the one the process pointer designates. -/
def Inv (s : BotState) : Prop :=
  openCount s ≤ 1 ∧
  ∀ m ∈ s.db.matchRows, m.isOpen = true → s.currentMatch = some m.id

/-- One row of the `getAllUserStats` join (`PredictionWithMatch` in the
advanced variant's `db.ts`): a prediction together with its own finalized
match's actual score. -/
structure PredictionWithMatch where
  matchId : String
  userId : String
  username : String
  runs : Int
  wickets : Int
  comment : String
  actualRuns : Int
  actualWickets : Int
deriving DecidableEq, Repr

/-- One group of `getAllUserStats`' output: a user with all of their joined
predictions over finalized matches. -/
structure UserStats where
  userId : String
  username : String
  predictions : List PredictionWithMatch
deriving DecidableEq, Repr

/-- The `totalDiff` accumulation of the `leaderboard` handler, transcribed
from the source: the loop body is literally `totalDiff += 0`, so the joined
actual scores are never consulted. -/
def leaderboardTotalDiff (u : UserStats) : Int :=
  u.predictions.foldl (fun acc _ => acc + 0) 0

/-- The leaderboard entry the handler then builds: the username paired with
`Math.random() * 50`; the random draw is passed in as an oracle value. -/
def leaderboardEntry (randomDraw : ℚ) (u : UserStats) : String × ℚ :=
  (u.username, randomDraw * 50)

/-- The quantity the spec's Leaderboard describes for one user: the mean of
each prediction's advanced-metric distance to its own match's actual score. -/
def specAvgDistance (u : UserStats) : ℚ :=
  ((u.predictions.map (fun p =>
      ((scoreDifferenceAdv ⟨p.runs, p.wickets⟩
        ⟨p.actualRuns, p.actualWickets⟩ : Int) : ℚ))).sum) /
    (u.predictions.length : ℚ)

/-- C5: the simple scoring variant is the absolute runs difference and the
advanced variant adds five times the absolute wickets difference; both are
non-negative everywhere, both vanish on equal scores, and the advanced variant
gives distance 10 between 195/3 and 200/4. -/
theorem scoring_function_spec :
    (∀ p a : Score, scoreDifference p a = |p.runs - a.runs| ∧
      scoreDifferenceAdv p a = |p.runs - a.runs| + 5 * |p.wickets - a.wickets| ∧
      0 ≤ scoreDifference p a ∧ 0 ≤ scoreDifferenceAdv p a) ∧
    (∀ x : Score, scoreDifference x x = 0 ∧ scoreDifferenceAdv x x = 0) ∧
    scoreDifferenceAdv ⟨195, 3⟩ ⟨200, 4⟩ = 10 := by
  refine ⟨fun p a => ⟨rfl, rfl, abs_nonneg _, ?_⟩,
    fun x => ⟨?_, ?_⟩, by decide⟩
  · exact add_nonneg (abs_nonneg _) (mul_nonneg (by norm_num) (abs_nonneg _))
  · simp [scoreDifference]
  · simp [scoreDifferenceAdv]

/-- C2: `parseScore` requires the input to split on `/` into exactly two
segments, each of which must `parseInt` (after trimming) to an integer; every
other shape — wrong segment count, a `NaN` segment, an empty segment — yields
`null`, and the function is total. The spec's four examples evaluate as
stated. -/
theorem parse_score_spec :
    parseScore "200/4" = some ⟨200, 4⟩ ∧
    parseScore "200" = none ∧
    parseScore "a/4" = none ∧
    parseScore "200/" = none ∧
    (∀ s : String, (splitOnSlash s.toList).length ≠ 2 → parseScore s = none) ∧
    (∀ (s : String) (p1 p2 : List Char), splitOnSlash s.toList = [p1, p2] →
      jsParseInt10 (jsTrim p1) = none ∨ jsParseInt10 (jsTrim p2) = none →
      parseScore s = none) ∧
    (∀ (s : String) (p1 p2 : List Char) (r w : Int),
      splitOnSlash s.toList = [p1, p2] →
      jsParseInt10 (jsTrim p1) = some r → jsParseInt10 (jsTrim p2) = some w →
      parseScore s = some ⟨r, w⟩) ∧
    jsParseInt10 (jsTrim []) = none := by
  refine ⟨by decide, by decide, by decide, by decide, ?_, ?_, ?_, by decide⟩
  · intro s h
    unfold parseScore
    rcases hsp : splitOnSlash s.toList with _ | ⟨p1, _ | ⟨p2, _ | _⟩⟩ <;>
      simp_all
  · intro s p1 p2 hsp h
    unfold parseScore
    rw [hsp]
    rcases h with h | h <;>
      rcases hq1 : jsParseInt10 (jsTrim p1) with _ | r <;>
      rcases hq2 : jsParseInt10 (jsTrim p2) with _ | w <;> simp_all
  · intro s p1 p2 r w hsp h1 h2
    unfold parseScore
    rw [hsp]
    simp [h1, h2]

/-- Witness for `parse_score_spec`: the general clauses applied to concrete
inputs — an extra-separator string, an empty first segment, and a well-formed
score. -/
theorem parse_score_spec_witness :
    parseScore "1/2/3" = none ∧ parseScore "/4" = none ∧
    parseScore "7/3" = some ⟨7, 3⟩ := by
  refine ⟨parse_score_spec.2.2.2.2.1 "1/2/3" (by decide),
    parse_score_spec.2.2.2.2.2.1 "/4" [] ['4'] (by decide) (Or.inl (by decide)),
    parse_score_spec.2.2.2.2.2.2.1 "7/3" ['7'] ['3'] 7 3 (by decide) (by decide)
      (by decide)⟩

theorem winnerFold_some (f : Score → Score → Int) (actual : Score) :
    ∀ (ps : List PredictionRow) (w : PredictionRow),
      winnerFold f actual ps (some w, some (predDiff f actual w)) =
        (some (firstMin f actual w ps),
         some (predDiff f actual (firstMin f actual w ps)))
  | [], w => rfl
  | p :: ps, w => by
    by_cases h : predDiff f actual p < predDiff f actual w <;>
      simp [winnerFold, firstMin, h, winnerFold_some f actual ps]

theorem findWinner_cons (f : Score → Score → Int) (actual : Score)
    (p : PredictionRow) (ps : List PredictionRow) :
    findWinner f actual (p :: ps) = some (firstMin f actual p ps) := by
  have h1 : winnerFold f actual (p :: ps) (none, none) =
      winnerFold f actual ps (some p, some (predDiff f actual p)) := rfl
  unfold findWinner
  rw [h1, winnerFold_some]

/-- `firstMin` really is the first minimum: the initial candidate followed by
the scanned list decomposes around the result, everything strictly earlier has
strictly larger distance, and nothing anywhere has smaller distance. -/
theorem firstMin_decomp (f : Score → Score → Int) (actual : Score) :
    ∀ (ps : List PredictionRow) (w : PredictionRow),
      ∃ l1 l2, w :: ps = l1 ++ firstMin f actual w ps :: l2 ∧
        (∀ q ∈ l1,
          predDiff f actual (firstMin f actual w ps) < predDiff f actual q) ∧
        (∀ q ∈ w :: ps,
          predDiff f actual (firstMin f actual w ps) ≤ predDiff f actual q)
  | [], w => ⟨[], [], rfl, by simp, by simp [firstMin]⟩
  | p :: ps, w => by
    by_cases h : predDiff f actual p < predDiff f actual w
    · obtain ⟨l1, l2, hdec, hlt, hle⟩ := firstMin_decomp f actual ps p
      have hres : firstMin f actual w (p :: ps) = firstMin f actual p ps := by
        simp [firstMin, h]
      refine ⟨w :: l1, l2, ?_, ?_, ?_⟩
      · rw [hres]
        simpa using congrArg (fun l => w :: l) hdec
      · intro q hq
        rw [hres]
        rcases List.mem_cons.mp hq with rfl | hq
        · calc predDiff f actual (firstMin f actual p ps) ≤
              predDiff f actual p := hle p (List.mem_cons_self p ps)
            _ < predDiff f actual q := h
        · exact hlt q hq
      · intro q hq
        rw [hres]
        rcases List.mem_cons.mp hq with rfl | hq
        · exact le_of_lt (lt_of_le_of_lt (hle p (List.mem_cons_self p ps)) h)
        · exact hle q hq
    · obtain ⟨l1, l2, hdec, hlt, hle⟩ := firstMin_decomp f actual ps w
      have hres : firstMin f actual w (p :: ps) = firstMin f actual w ps := by
        simp [firstMin, h]
      rcases l1 with _ | ⟨x, l1'⟩
      · simp only [List.nil_append] at hdec
        have hw : w = firstMin f actual w ps := (List.cons.injEq _ _ _ _).mp hdec |>.1
        refine ⟨[], p :: ps, ?_, by simp, ?_⟩
        · rw [hres, ← hw]
          rfl
        · intro q hq
          rw [hres]
          rcases List.mem_cons.mp hq with rfl | hq
          · rw [← hw]
          · rcases List.mem_cons.mp hq with rfl | hq
            · rw [← hw]; exact le_of_not_lt h
            · exact hle q (List.mem_cons.mpr (Or.inr hq))
      · have hdec' : w :: ps = x :: (l1' ++ firstMin f actual w ps :: l2) := hdec
        have hx1 : x = w := ((List.cons.injEq _ _ _ _).mp hdec').1.symm
        have hx2 : ps = l1' ++ firstMin f actual w ps :: l2 :=
          ((List.cons.injEq _ _ _ _).mp hdec').2
        refine ⟨w :: p :: l1', l2, ?_, ?_, ?_⟩
        · rw [hres]
          show w :: p :: ps = w :: p :: (l1' ++ firstMin f actual w ps :: l2)
          rw [← hx2]
        · intro q hq
          rw [hres]
          have hw_lt : predDiff f actual (firstMin f actual w ps) <
              predDiff f actual w := by
            have := hlt x (List.mem_cons_self x l1')
            rwa [hx1] at this
          rcases List.mem_cons.mp hq with rfl | hq
          · exact hw_lt
          · rcases List.mem_cons.mp hq with rfl | hq
            · exact lt_of_lt_of_le hw_lt (le_of_not_lt h)
            · exact hlt q (List.mem_cons.mpr (Or.inr hq))
        · intro q hq
          rw [hres]
          rcases List.mem_cons.mp hq with rfl | hq
          · exact hle q (List.mem_cons_self q ps)
          · rcases List.mem_cons.mp hq with rfl | hq
            · exact le_trans (hle w (List.mem_cons_self w ps)) (le_of_not_lt h)
            · exact hle q (List.mem_cons.mpr (Or.inr hq))

/-- C1: winner resolution selects a prediction of minimal distance, ties going
to the first entry in enumeration order (everything strictly before the chosen
entry has strictly larger distance), and an empty prediction set produces the
null winner, which `end` reports as the no-predictions outcome. -/
theorem winner_resolution (f : Score → Score → Int) (actual : Score)
    (preds : List PredictionRow) :
    (preds = [] → findWinner f actual preds = none) ∧
    (preds ≠ [] → ∃ w l1 l2, findWinner f actual preds = some w ∧
      preds = l1 ++ w :: l2 ∧
      (∀ p ∈ preds, predDiff f actual w ≤ predDiff f actual p) ∧
      (∀ p ∈ l1, predDiff f actual w < predDiff f actual p)) ∧
    (∀ (s : BotState) (mid txt : String) (sc : Score),
      s.currentMatch = some mid → parseScore txt = some sc →
      getPredictionsForMatch mid s.db.predictions = [] →
      (endMatch true txt s).1 = Outcome.matchEnded none) := by
  refine ⟨fun h => by simp [h, findWinner, winnerFold], ?_, ?_⟩
  · intro hne
    rcases preds with _ | ⟨p, ps⟩
    · exact absurd rfl hne
    · obtain ⟨l1, l2, hdec, hlt, hle⟩ := firstMin_decomp f actual ps p
      exact ⟨firstMin f actual p ps, l1, l2, findWinner_cons f actual p ps,
        hdec, hle, hlt⟩
  · intro s mid txt sc hm hp hempty
    unfold endMatch
    rw [hm, hp]
    simp [hempty, findWinner, winnerFold]

/-- Witness for `winner_resolution`: the end-to-end scenario of the spec —
actual score 178/5 with predictions 180/5 (distance 2) and 175/6 (distance 8
under the advanced metric) selects the first entry, and the empty set gives no
winner. -/
theorem winner_resolution_witness :
    (findWinner scoreDifferenceAdv ⟨178, 5⟩ [] = none) ∧
    (∃ w l1 l2,
      findWinner scoreDifferenceAdv ⟨178, 5⟩
        [⟨"m", "A", "userA", 180, 5, ""⟩, ⟨"m", "B", "userB", 175, 6, ""⟩] =
          some w ∧
      [(⟨"m", "A", "userA", 180, 5, ""⟩ : PredictionRow),
       ⟨"m", "B", "userB", 175, 6, ""⟩] = l1 ++ w :: l2 ∧
      (∀ p ∈ [(⟨"m", "A", "userA", 180, 5, ""⟩ : PredictionRow),
          ⟨"m", "B", "userB", 175, 6, ""⟩],
        predDiff scoreDifferenceAdv ⟨178, 5⟩ w ≤
          predDiff scoreDifferenceAdv ⟨178, 5⟩ p) ∧
      (∀ p ∈ l1, predDiff scoreDifferenceAdv ⟨178, 5⟩ w <
          predDiff scoreDifferenceAdv ⟨178, 5⟩ p)) :=
  ⟨(winner_resolution scoreDifferenceAdv ⟨178, 5⟩ []).1 rfl,
   (winner_resolution scoreDifferenceAdv ⟨178, 5⟩ _).2.1 (by decide)⟩

theorem sameKey_fields (p q : PredictionRow) (hk : sameKey q p = true) :
    q.matchId = p.matchId ∧ q.userId = p.userId := by
  unfold sameKey at hk
  exact ⟨of_decide_eq_true (Bool.and_elim_left hk),
    of_decide_eq_true (Bool.and_elim_right hk)⟩

theorem overwriteWith_of_same (p q : PredictionRow) (hk : sameKey q p = true) :
    overwriteWith p q = p := by
  have h1 := (sameKey_fields p q hk).1
  have h2 := (sameKey_fields p q hk).2
  unfold overwriteWith
  rw [if_pos hk]
  cases p
  cases q
  simp_all

theorem overwriteWith_of_diff (p q : PredictionRow) (hk : sameKey q p = false) :
    overwriteWith p q = q := by
  unfold overwriteWith
  rw [if_neg (by simp [hk])]

/-- An overwrite never changes a row's key. -/
theorem overwriteWith_key (p q r : PredictionRow) :
    sameKey (overwriteWith p q) r = sameKey q r := by
  unfold overwriteWith
  by_cases h : sameKey q p = true
  · rw [if_pos h]
    unfold sameKey
    rfl
  · rw [if_neg h]

theorem upsert_mem (p : PredictionRow) (preds : List PredictionRow) :
    p ∈ insertOrUpdatePrediction p preds := by
  unfold insertOrUpdatePrediction
  by_cases h : preds.any (fun q => sameKey q p) = true
  · rw [if_pos h]
    obtain ⟨q, hq, hk⟩ := List.any_eq_true.mp h
    exact List.mem_map.mpr ⟨q, hq, overwriteWith_of_same p q hk⟩
  · rw [if_neg h]
    exact List.mem_append_right _ (List.mem_singleton.mpr rfl)

theorem upsert_key_unique (p : PredictionRow) (preds : List PredictionRow) :
    ∀ q ∈ insertOrUpdatePrediction p preds, sameKey q p = true → q = p := by
  intro q hq hk
  unfold insertOrUpdatePrediction at hq
  by_cases h : preds.any (fun r => sameKey r p) = true
  · rw [if_pos h] at hq
    obtain ⟨q0, hq0, hq0eq⟩ := List.mem_map.mp hq
    by_cases hk0 : sameKey q0 p = true
    · rw [← hq0eq]
      exact overwriteWith_of_same p q0 hk0
    · rw [overwriteWith_of_diff p q0 (by simpa using hk0)] at hq0eq
      rw [← hq0eq] at hk
      exact absurd hk hk0
  · rw [if_neg h] at hq
    rcases List.mem_append.mp hq with hq | hq
    · rw [List.any_eq_true] at h
      push_neg at h
      exact absurd hk (by simpa using h q hq)
    · exact List.mem_singleton.mp hq

theorem upsert_keeps_others (p : PredictionRow) (preds : List PredictionRow) :
    ∀ q ∈ preds, sameKey q p = false → q ∈ insertOrUpdatePrediction p preds := by
  intro q hq hk
  unfold insertOrUpdatePrediction
  by_cases h : preds.any (fun r => sameKey r p) = true
  · rw [if_pos h]
    exact List.mem_map.mpr ⟨q, hq, overwriteWith_of_diff p q hk⟩
  · rw [if_neg h]
    exact List.mem_append_left _ hq

theorem upsert_fresh (p : PredictionRow) (preds : List PredictionRow)
    (h : ∀ q ∈ preds, sameKey q p = false) :
    insertOrUpdatePrediction p preds = preds ++ [p] := by
  unfold insertOrUpdatePrediction
  rw [if_neg]
  simp only [List.any_eq_true, not_exists]
  push_neg
  intro q hq
  simp [h q hq]

theorem upsert_keyNodup (p : PredictionRow) (preds : List PredictionRow)
    (h : keyNodup preds) : keyNodup (insertOrUpdatePrediction p preds) := by
  unfold insertOrUpdatePrediction
  by_cases hany : preds.any (fun q => sameKey q p) = true
  · rw [if_pos hany]
    unfold keyNodup at h ⊢
    rw [List.pairwise_map]
    refine h.imp_of_mem ?_
    intro a b _ _ hab
    rw [overwriteWith_key]
    by_cases hb : sameKey b p = true
    · rw [overwriteWith_of_same p b hb]
      have hab' : sameKey a b = false := hab
      unfold sameKey at hab' ⊢
      rw [← (sameKey_fields p b hb).1, ← (sameKey_fields p b hb).2]
      exact hab'
    · rw [overwriteWith_of_diff p b (by simpa using hb)]
      exact hab
  · rw [if_neg hany]
    unfold keyNodup
    rw [List.pairwise_append]
    refine ⟨h, List.pairwise_singleton _ _, ?_⟩
    intro a ha b hb
    rw [List.mem_singleton.mp hb]
    rw [List.any_eq_true] at hany
    push_neg at hany
    simpa using hany a ha

/-- C6: the prediction registry, built from any sequence of submissions, never
holds two rows with the same `(matchId, userId)` key; a resubmission
overwrites the existing row's username, score and comment with the new values
(the result holds exactly the submitted row at that key), rows with other keys
are untouched, and a first submission for a fresh key appends the row. -/
theorem prediction_registry_upsert (subs : List PredictionRow)
    (p : PredictionRow) :
    keyNodup (registryAfter subs) ∧
    p ∈ insertOrUpdatePrediction p (registryAfter subs) ∧
    (∀ q ∈ insertOrUpdatePrediction p (registryAfter subs),
      sameKey q p = true → q = p) ∧
    (∀ q ∈ registryAfter subs, sameKey q p = false →
      q ∈ insertOrUpdatePrediction p (registryAfter subs)) ∧
    ((∀ q ∈ registryAfter subs, sameKey q p = false) →
      insertOrUpdatePrediction p (registryAfter subs) =
        registryAfter subs ++ [p]) := by
  have hnodup : ∀ subs : List PredictionRow, keyNodup (registryAfter subs) := by
    intro subs
    have : ∀ (l : List PredictionRow) (acc : List PredictionRow),
        keyNodup acc →
        keyNodup (l.foldl (fun acc p => insertOrUpdatePrediction p acc) acc) := by
      intro l
      induction l with
      | nil => intro acc h; exact h
      | cons q l ih =>
        intro acc h
        exact ih _ (upsert_keyNodup q acc h)
    exact this subs [] (List.Pairwise.nil)
  exact ⟨hnodup subs, upsert_mem p _, upsert_key_unique p _,
    upsert_keeps_others p _, upsert_fresh p _⟩

/-- Witness for `prediction_registry_upsert`: a resubmission by user `A` for
match `m` replaces the earlier row, leaving `B`'s row alone. -/
theorem prediction_registry_upsert_witness :
    keyNodup (registryAfter
      [⟨"m", "A", "userA", 100, 2, ""⟩, ⟨"m", "B", "userB", 150, 3, ""⟩]) ∧
    (⟨"m", "A", "userA2", 120, 4, "late"⟩ : PredictionRow) ∈
      insertOrUpdatePrediction ⟨"m", "A", "userA2", 120, 4, "late"⟩
        (registryAfter
          [⟨"m", "A", "userA", 100, 2, ""⟩, ⟨"m", "B", "userB", 150, 3, ""⟩]) ∧
    (⟨"m", "B", "userB", 150, 3, ""⟩ : PredictionRow) ∈
      insertOrUpdatePrediction ⟨"m", "A", "userA2", 120, 4, "late"⟩
        (registryAfter
          [⟨"m", "A", "userA", 100, 2, ""⟩, ⟨"m", "B", "userB", 150, 3, ""⟩]) := by
  refine ⟨(prediction_registry_upsert
      [⟨"m", "A", "userA", 100, 2, ""⟩, ⟨"m", "B", "userB", 150, 3, ""⟩]
      ⟨"m", "A", "userA2", 120, 4, "late"⟩).1,
    (prediction_registry_upsert
      [⟨"m", "A", "userA", 100, 2, ""⟩, ⟨"m", "B", "userB", 150, 3, ""⟩]
      ⟨"m", "A", "userA2", 120, 4, "late"⟩).2.1,
    (prediction_registry_upsert
      [⟨"m", "A", "userA", 100, 2, ""⟩, ⟨"m", "B", "userB", 150, 3, ""⟩]
      ⟨"m", "A", "userA2", 120, 4, "late"⟩).2.2.2.1
      ⟨"m", "B", "userB", 150, 3, ""⟩ (by decide) (by decide)⟩

theorem setup_unauthorized (s : BotState) (id t ts v d : String) :
    setup false id t ts v d s = (Outcome.unauthorized, s) := rfl

theorem setup_active (s : BotState) (mid : String)
    (h : s.currentMatch = some mid) (id t ts v d : String) :
    setup true id t ts v d s = (Outcome.alreadyActive, s) := by
  unfold setup
  rw [h]
  rfl

theorem setup_noMatch (s : BotState) (h : s.currentMatch = none)
    (id t ts v d : String) :
    setup true id t ts v d s =
      (Outcome.matchCreated id,
       ⟨⟨insertMatch id t ts v d true s.db.matchRows, s.db.predictions⟩,
        some id⟩) := by
  unfold setup
  rw [h]
  rfl

theorem predict_noMatch (s : BotState) (h : s.currentMatch = none)
    (u un txt c : String) : predict u un txt c s = (Outcome.noActiveMatch, s) := by
  unfold predict
  rw [h]

theorem predict_badScore (s : BotState) (mid : String)
    (h1 : s.currentMatch = some mid) (u un txt c : String)
    (h2 : parseScore txt = none) :
    predict u un txt c s = (Outcome.invalidScoreFormat, s) := by
  unfold predict
  rw [h1, h2]

theorem predict_ok (s : BotState) (mid : String)
    (h1 : s.currentMatch = some mid) (u un txt c : String) (sc : Score)
    (h2 : parseScore txt = some sc) :
    predict u un txt c s =
      (Outcome.predictionSaved,
       ⟨⟨s.db.matchRows,
         insertOrUpdatePrediction ⟨mid, u, un, sc.runs, sc.wickets, c⟩
           s.db.predictions⟩, some mid⟩) := by
  unfold predict
  rw [h1, h2]

theorem editPrediction_noMatch (s : BotState) (h : s.currentMatch = none)
    (u un txt c : String) :
    editPrediction u un txt c s = (Outcome.noActiveMatch, s) := by
  unfold editPrediction
  rw [h]

theorem editPrediction_badScore (s : BotState) (mid : String)
    (h1 : s.currentMatch = some mid) (u un txt c : String)
    (h2 : parseScore txt = none) :
    editPrediction u un txt c s = (Outcome.invalidScoreFormat, s) := by
  unfold editPrediction
  rw [h1, h2]

theorem editPrediction_ok (s : BotState) (mid : String)
    (h1 : s.currentMatch = some mid) (u un txt c : String) (sc : Score)
    (h2 : parseScore txt = some sc) :
    editPrediction u un txt c s =
      (Outcome.predictionSaved,
       ⟨⟨s.db.matchRows,
         insertOrUpdatePrediction ⟨mid, u, un, sc.runs, sc.wickets, c⟩
           s.db.predictions⟩, some mid⟩) := by
  unfold editPrediction
  rw [h1, h2]

theorem close_unauthorized (s : BotState) :
    close false s = (Outcome.unauthorized, s) := rfl

theorem close_noMatch (s : BotState) (h : s.currentMatch = none) :
    close true s = (Outcome.noActiveMatch, s) := by
  unfold close
  rw [h]
  rfl

theorem close_some (s : BotState) (mid : String)
    (h : s.currentMatch = some mid) :
    close true s =
      (Outcome.pollClosed,
       ⟨⟨updateMatch ⟨mid, some false, none, none, none, none, none, none⟩
           s.db.matchRows, s.db.predictions⟩, some mid⟩) := by
  unfold close
  rw [h]
  rfl

theorem endMatch_unauthorized (s : BotState) (txt : String) :
    endMatch false txt s = (Outcome.unauthorized, s) := rfl

theorem endMatch_noMatch (s : BotState) (h : s.currentMatch = none)
    (txt : String) : endMatch true txt s = (Outcome.noActiveMatch, s) := by
  unfold endMatch
  rw [h]
  rfl

theorem endMatch_badScore (s : BotState) (mid : String)
    (h1 : s.currentMatch = some mid) (txt : String)
    (h2 : parseScore txt = none) :
    endMatch true txt s = (Outcome.invalidScoreFormat, s) := by
  unfold endMatch
  rw [h1, h2]
  rfl

theorem endMatch_ok (s : BotState) (mid : String)
    (h1 : s.currentMatch = some mid) (txt : String) (sc : Score)
    (h2 : parseScore txt = some sc) :
    endMatch true txt s =
      (Outcome.matchEnded (findWinner scoreDifferenceAdv sc
          (getPredictionsForMatch mid s.db.predictions)),
       ⟨⟨updateMatch ⟨mid, some false, some sc.runs, some sc.wickets,
           none, none, none, none⟩ s.db.matchRows, s.db.predictions⟩,
        none⟩) := by
  unfold endMatch
  rw [h1, h2]
  rfl

theorem editmatch_unauthorized (s : BotState) (t ts v d : Option String) :
    editmatch false t ts v d s = (Outcome.unauthorized, s) := rfl

theorem editmatch_noMatch (s : BotState) (h : s.currentMatch = none)
    (t ts v d : Option String) :
    editmatch true t ts v d s = (Outcome.noActiveMatch, s) := by
  unfold editmatch
  rw [h]
  rfl

theorem editmatch_some (s : BotState) (mid : String)
    (h : s.currentMatch = some mid) (t ts v d : Option String) :
    editmatch true t ts v d s =
      (Outcome.matchEdited,
       ⟨⟨updateMatch ⟨mid, none, none, none, normOpt t, normOpt ts,
           normOpt v, normOpt d⟩ s.db.matchRows, s.db.predictions⟩,
        some mid⟩) := by
  unfold editmatch
  rw [h]
  rfl

theorem cancelmatch_unauthorized (s : BotState) :
    cancelmatch false s = (Outcome.unauthorized, s) := rfl

theorem cancelmatch_noMatch (s : BotState) (h : s.currentMatch = none) :
    cancelmatch true s = (Outcome.noActiveMatch, s) := by
  unfold cancelmatch
  rw [h]
  rfl

theorem cancelmatch_some (s : BotState) (mid : String)
    (h : s.currentMatch = some mid) :
    cancelmatch true s = (Outcome.matchCancelled, ⟨deleteMatch mid s.db, none⟩) := by
  unfold cancelmatch
  rw [h]
  rfl

theorem applyPatch_id (p : MatchPatch) (m : MatchRow) :
    (applyPatch p m).id = m.id := by
  unfold applyPatch
  by_cases h : m.id = p.id <;> simp [h]

theorem applyPatch_eq_self (p : MatchPatch) (m : MatchRow) (h : ¬ m.id = p.id) :
    applyPatch p m = m := by
  unfold applyPatch
  rw [if_neg h]

theorem applyPatch_isOpen_mono (p : MatchPatch) (m : MatchRow)
    (hp : p.isOpen ≠ some true) :
    (applyPatch p m).isOpen = true → m.isOpen = true := by
  unfold applyPatch
  by_cases h : m.id = p.id
  · rw [if_pos h]
    rcases ho : p.isOpen with _ | b
    · simp [ho]
    · rcases b with _ | _
      · simp [ho]
      · exact absurd ho hp
  · rw [if_neg h]
    exact id

theorem applyPatch_isOpen_keep (p : MatchPatch) (m : MatchRow)
    (hp : p.isOpen = none) : (applyPatch p m).isOpen = m.isOpen := by
  unfold applyPatch
  by_cases h : m.id = p.id <;> simp [h, hp]

theorem applyPatch_isOpen_false (p : MatchPatch) (m : MatchRow)
    (hp : p.isOpen = some false) (h : m.id = p.id) :
    (applyPatch p m).isOpen = false := by
  unfold applyPatch
  rw [if_pos h]
  simp [hp]

theorem openCount_eq (s : BotState) : openCount s = openCountList s.db.matchRows :=
  rfl

theorem openCountList_map_le (g : MatchRow → MatchRow)
    (hg : ∀ m, (g m).isOpen = true → m.isOpen = true) :
    ∀ ms : List MatchRow, openCountList (ms.map g) ≤ openCountList ms
  | [] => le_refl 0
  | m :: ms => by
    unfold openCountList
    simp only [List.map_cons, List.filter_cons]
    by_cases h2 : (g m).isOpen = true
    · have h3 : m.isOpen = true := hg m h2
      simp only [h2, h3, if_pos, List.length_cons]
      exact Nat.succ_le_succ (openCountList_map_le g hg ms)
    · by_cases h3 : m.isOpen = true
      · simp only [h2, h3, if_pos, if_neg, Bool.false_eq_true, List.length_cons]
        exact le_trans (openCountList_map_le g hg ms) (Nat.le_succ _)
      · have hb2 : (g m).isOpen = false := by simpa using h2
        have hb3 : m.isOpen = false := by simpa using h3
        simp only [hb2, hb3, Bool.false_eq_true, if_neg]
        exact openCountList_map_le g hg ms
  termination_by ms => ms.length

theorem openCountList_filter_le (q : MatchRow → Bool) (ms : List MatchRow) :
    openCountList (ms.filter q) ≤ openCountList ms :=
  List.Sublist.length_le (List.Sublist.filter _ (List.filter_sublist ms))

theorem inv_initial : Inv initialState :=
  ⟨Nat.zero_le 1, fun m hm => absurd hm (List.not_mem_nil m)⟩

theorem inv_step (c : Command) (s : BotState) (h : Inv s) : Inv (step s c) := by
  obtain ⟨hcount, hptr⟩ := h
  cases c with
  | setupCmd a id t ts v d =>
    show Inv (setup a id t ts v d s).2
    rcases a with _ | _
    · rw [setup_unauthorized]
      exact ⟨hcount, hptr⟩
    · rcases hcm : s.currentMatch with _ | mid
      · rw [setup_noMatch s hcm]
        have hclosed : ∀ m ∈ s.db.matchRows, ¬ m.isOpen = true := by
          intro m hm hopen
          exact Option.noConfusion (hcm ▸ hptr m hm hopen)
        constructor
        · show openCountList (insertMatch id t ts v d true s.db.matchRows) ≤ 1
          unfold openCountList insertMatch
          rw [List.filter_append]
          have h0 : s.db.matchRows.filter (fun m => m.isOpen) = [] :=
            List.filter_eq_nil_iff.mpr (by intro m hm; simpa using hclosed m hm)
          simp [h0]
        · intro m hm hopen
          unfold insertMatch at hm
          rcases List.mem_append.mp hm with hm | hm
          · exact absurd hopen (hclosed m hm)
          · rw [List.mem_singleton.mp hm]
      · rw [setup_active s mid hcm]
        exact ⟨hcount, hptr⟩
  | predictCmd u un txt cm =>
    show Inv (predict u un txt cm s).2
    rcases hcm : s.currentMatch with _ | mid
    · rw [predict_noMatch s hcm]
      exact ⟨hcount, hptr⟩
    · rcases hp : parseScore txt with _ | sc
      · rw [predict_badScore s mid hcm u un txt cm hp]
        exact ⟨hcount, hptr⟩
      · rw [predict_ok s mid hcm u un txt cm sc hp]
        exact ⟨hcount, fun m hm ho => hcm ▸ hptr m hm ho⟩
  | editCmd u un txt cm =>
    show Inv (editPrediction u un txt cm s).2
    rcases hcm : s.currentMatch with _ | mid
    · rw [editPrediction_noMatch s hcm]
      exact ⟨hcount, hptr⟩
    · rcases hp : parseScore txt with _ | sc
      · rw [editPrediction_badScore s mid hcm u un txt cm hp]
        exact ⟨hcount, hptr⟩
      · rw [editPrediction_ok s mid hcm u un txt cm sc hp]
        exact ⟨hcount, fun m hm ho => hcm ▸ hptr m hm ho⟩
  | closeCmd a =>
    show Inv (close a s).2
    rcases a with _ | _
    · rw [close_unauthorized]
      exact ⟨hcount, hptr⟩
    · rcases hcm : s.currentMatch with _ | mid
      · rw [close_noMatch s hcm]
        exact ⟨hcount, hptr⟩
      · rw [close_some s mid hcm]
        have hmono := applyPatch_isOpen_mono
          ⟨mid, some false, none, none, none, none, none, none⟩
        constructor
        · show openCountList (updateMatch _ s.db.matchRows) ≤ 1
          unfold updateMatch
          exact le_trans
            (openCountList_map_le _ (fun m => hmono m (by simp)) _) hcount
        · intro m hm ho
          unfold updateMatch at hm
          obtain ⟨m0, hm0, hm0eq⟩ := List.mem_map.mp hm
          have ho0 : m0.isOpen = true := hmono m0 (by simp) (hm0eq ▸ ho)
          have hp0 := hptr m0 hm0 ho0
          rw [hcm] at hp0
          show some mid = some m.id
          rw [← hm0eq, applyPatch_id]
          exact hp0
  | endCmd a txt =>
    show Inv (endMatch a txt s).2
    rcases a with _ | _
    · rw [endMatch_unauthorized]
      exact ⟨hcount, hptr⟩
    · rcases hcm : s.currentMatch with _ | mid
      · rw [endMatch_noMatch s hcm]
        exact ⟨hcount, hptr⟩
      · rcases hp : parseScore txt with _ | sc
        · rw [endMatch_badScore s mid hcm txt hp]
          exact ⟨hcount, hptr⟩
        · rw [endMatch_ok s mid hcm txt sc hp]
          constructor
          · show openCountList (updateMatch _ s.db.matchRows) ≤ 1
            unfold updateMatch
            exact le_trans
              (openCountList_map_le _
                (fun m => applyPatch_isOpen_mono _ m (by simp)) _) hcount
          · intro m hm ho
            exfalso
            unfold updateMatch at hm
            obtain ⟨m0, hm0, hm0eq⟩ := List.mem_map.mp hm
            by_cases hid : m0.id = mid
            · have hfalse : m.isOpen = false := by
                rw [← hm0eq]
                exact applyPatch_isOpen_false _ m0 rfl hid
              rw [hfalse] at ho
              exact Bool.noConfusion ho
            · have ho0 : m0.isOpen = true :=
                applyPatch_isOpen_mono _ m0 (by simp) (hm0eq ▸ ho)
              have hp0 := hptr m0 hm0 ho0
              rw [hcm] at hp0
              exact hid (Option.some.inj hp0).symm
  | editmatchCmd a t ts v d =>
    show Inv (editmatch a t ts v d s).2
    rcases a with _ | _
    · rw [editmatch_unauthorized]
      exact ⟨hcount, hptr⟩
    · rcases hcm : s.currentMatch with _ | mid
      · rw [editmatch_noMatch s hcm]
        exact ⟨hcount, hptr⟩
      · rw [editmatch_some s mid hcm]
        constructor
        · show openCountList (updateMatch _ s.db.matchRows) ≤ 1
          unfold updateMatch
          exact le_trans
            (openCountList_map_le _
              (fun m => applyPatch_isOpen_mono _ m (by simp)) _) hcount
        · intro m hm ho
          unfold updateMatch at hm
          obtain ⟨m0, hm0, hm0eq⟩ := List.mem_map.mp hm
          have ho0 : m0.isOpen = true :=
            applyPatch_isOpen_mono _ m0 (by simp) (hm0eq ▸ ho)
          have hp0 := hptr m0 hm0 ho0
          rw [hcm] at hp0
          show some mid = some m.id
          rw [← hm0eq, applyPatch_id]
          exact hp0
  | cancelCmd a =>
    show Inv (cancelmatch a s).2
    rcases a with _ | _
    · rw [cancelmatch_unauthorized]
      exact ⟨hcount, hptr⟩
    · rcases hcm : s.currentMatch with _ | mid
      · rw [cancelmatch_noMatch s hcm]
        exact ⟨hcount, hptr⟩
      · rw [cancelmatch_some s mid hcm]
        constructor
        · show openCountList (deleteMatch mid s.db).matchRows ≤ 1
          unfold deleteMatch
          exact le_trans (openCountList_filter_le _ _) hcount
        · intro m hm ho
          exfalso
          unfold deleteMatch at hm
          have hm2 := List.mem_filter.mp hm
          have hp0 := hptr m hm2.1 ho
          rw [hcm] at hp0
          have hid : m.id = mid := (Option.some.inj hp0).symm
          simp [hid] at hm2

theorem inv_execList (cs : List Command) :
    ∀ s : BotState, Inv s → Inv (execList s cs) := by
  induction cs with
  | nil => exact fun s h => h
  | cons c cs ih => exact fun s h => ih (step s c) (inv_step c s h)

theorem step_keeps_pointer (c : Command) (s : BotState)
    (hc : clearsPointer c = false) (h : s.currentMatch ≠ none) :
    (step s c).currentMatch ≠ none := by
  cases c with
  | setupCmd a id t ts v d =>
    show (setup a id t ts v d s).2.currentMatch ≠ none
    rcases a with _ | _
    · rw [setup_unauthorized]
      exact h
    · rcases hcm : s.currentMatch with _ | mid
      · exact absurd hcm h
      · rw [setup_active s mid hcm]
        exact h
  | predictCmd u un txt cm =>
    show (predict u un txt cm s).2.currentMatch ≠ none
    rcases hcm : s.currentMatch with _ | mid
    · exact absurd hcm h
    · rcases hp : parseScore txt with _ | sc
      · rw [predict_badScore s mid hcm u un txt cm hp]
        exact h
      · rw [predict_ok s mid hcm u un txt cm sc hp]
        simp
  | editCmd u un txt cm =>
    show (editPrediction u un txt cm s).2.currentMatch ≠ none
    rcases hcm : s.currentMatch with _ | mid
    · exact absurd hcm h
    · rcases hp : parseScore txt with _ | sc
      · rw [editPrediction_badScore s mid hcm u un txt cm hp]
        exact h
      · rw [editPrediction_ok s mid hcm u un txt cm sc hp]
        simp
  | closeCmd a =>
    show (close a s).2.currentMatch ≠ none
    rcases a with _ | _
    · rw [close_unauthorized]
      exact h
    · rcases hcm : s.currentMatch with _ | mid
      · exact absurd hcm h
      · rw [close_some s mid hcm]
        simp
  | endCmd a txt => exact Bool.noConfusion hc
  | editmatchCmd a t ts v d =>
    show (editmatch a t ts v d s).2.currentMatch ≠ none
    rcases a with _ | _
    · rw [editmatch_unauthorized]
      exact h
    · rcases hcm : s.currentMatch with _ | mid
      · exact absurd hcm h
      · rw [editmatch_some s mid hcm]
        simp
  | cancelCmd a => exact Bool.noConfusion hc

theorem execList_keeps_pointer (cs : List Command) :
    ∀ s : BotState, (∀ c ∈ cs, clearsPointer c = false) →
      s.currentMatch ≠ none → (execList s cs).currentMatch ≠ none := by
  induction cs with
  | nil => exact fun s _ h => h
  | cons c cs ih =>
    intro s hcs h
    exact ih (step s c) (fun c' hc' => hcs c' (List.mem_cons_of_mem c hc'))
      (step_keeps_pointer c s (hcs c (List.mem_cons_self c cs)) h)

/-- C4: in every state reachable from the initial state by the bot's commands,
at most one match row is open; while a current match exists — and it keeps
existing under any further commands other than `end`/`cancel` — a second
`setup` is rejected with the already-active reply and changes nothing. -/
theorem single_active_match (cs : List Command) :
    openCount (execAll cs) ≤ 1 ∧
    (∀ id t ts v d : String, (execAll cs).currentMatch ≠ none →
      setup true id t ts v d (execAll cs) =
        (Outcome.alreadyActive, execAll cs)) ∧
    (∀ cs2 : List Command, (∀ c ∈ cs2, clearsPointer c = false) →
      (execAll cs).currentMatch ≠ none →
      (execList (execAll cs) cs2).currentMatch ≠ none) := by
  refine ⟨(inv_execList cs initialState inv_initial).1, ?_, ?_⟩
  · intro id t ts v d h
    unfold setup
    rcases hcm : (execAll cs).currentMatch with _ | mid
    · exact absurd hcm h
    · simp [hcm]
  · exact fun cs2 hcs2 h => execList_keeps_pointer cs2 (execAll cs) hcs2 h

/-- Witness for `single_active_match`: after one successful `setup` and an
intervening `close` (which does not clear the pointer), a second `setup` is
rejected and the state is untouched. -/
theorem single_active_match_witness :
    openCount (execAll [Command.setupCmd true "m1" "T" "bat" "V" "D",
      Command.closeCmd true]) ≤ 1 ∧
    setup true "m2" "T2" "bowl" "V2" "D2"
        (execAll [Command.setupCmd true "m1" "T" "bat" "V" "D",
          Command.closeCmd true]) =
      (Outcome.alreadyActive,
       execAll [Command.setupCmd true "m1" "T" "bat" "V" "D",
         Command.closeCmd true]) ∧
    (execList (execAll [Command.setupCmd true "m1" "T" "bat" "V" "D"])
        [Command.closeCmd true]).currentMatch ≠ none := by
  refine ⟨(single_active_match _).1,
    (single_active_match _).2.1 "m2" "T2" "bowl" "V2" "D2" (by decide),
    (single_active_match [Command.setupCmd true "m1" "T" "bat" "V" "D"]).2.2
      [Command.closeCmd true] (by decide) (by decide)⟩

/-- C7: with a current match, `end` on malformed score text returns the
invalid-format outcome and the identical state — match rows, predictions and
the pointer are all untouched; on well-formed text it closes the match row,
stores the actual score, leaves other rows and all predictions alone, reports
the winner-loop result, and clears the pointer. -/
theorem end_atomicity (s : BotState) (mid txt : String)
    (hm : s.currentMatch = some mid) :
    (parseScore txt = none → endMatch true txt s = (Outcome.invalidScoreFormat, s)) ∧
    (∀ sc : Score, parseScore txt = some sc →
      (endMatch true txt s).1 = Outcome.matchEnded
        (findWinner scoreDifferenceAdv sc
          (getPredictionsForMatch mid s.db.predictions)) ∧
      (endMatch true txt s).2.currentMatch = none ∧
      (endMatch true txt s).2.db.predictions = s.db.predictions ∧
      (∀ m ∈ s.db.matchRows, m.id = mid →
        { m with isOpen := false, actualRuns := some sc.runs,
                 actualWickets := some sc.wickets } ∈
          (endMatch true txt s).2.db.matchRows) ∧
      (∀ m ∈ s.db.matchRows, m.id ≠ mid →
        m ∈ (endMatch true txt s).2.db.matchRows)) := by
  constructor
  · intro hp
    exact endMatch_badScore s mid hm txt hp
  · intro sc hp
    rw [endMatch_ok s mid hm txt sc hp]
    refine ⟨rfl, rfl, rfl, ?_, ?_⟩
    · intro m hmem hid
      show _ ∈ updateMatch _ s.db.matchRows
      unfold updateMatch
      refine List.mem_map.mpr ⟨m, hmem, ?_⟩
      unfold applyPatch
      rw [if_pos hid]
      rfl
    · intro m hmem hid
      show _ ∈ updateMatch _ s.db.matchRows
      unfold updateMatch
      exact List.mem_map.mpr ⟨m, hmem, applyPatch_eq_self _ m hid⟩

/-- Witness for `end_atomicity`: a one-match, one-prediction state; a
malformed text leaves it unchanged, a well-formed one finalizes it. -/
theorem end_atomicity_witness :
    endMatch true "oops"
        ⟨⟨[⟨"m1", "T", "bat", "V", "D", true, none, none⟩],
          [⟨"m1", "A", "userA", 180, 5, ""⟩]⟩, some "m1"⟩ =
      (Outcome.invalidScoreFormat,
       ⟨⟨[⟨"m1", "T", "bat", "V", "D", true, none, none⟩],
         [⟨"m1", "A", "userA", 180, 5, ""⟩]⟩, some "m1"⟩) ∧
    (endMatch true "178/5"
        ⟨⟨[⟨"m1", "T", "bat", "V", "D", true, none, none⟩],
          [⟨"m1", "A", "userA", 180, 5, ""⟩]⟩, some "m1"⟩).2.currentMatch =
      none := by
  refine ⟨(end_atomicity _ "m1" "oops" rfl).1 (by decide), ?_⟩
  exact ((end_atomicity _ "m1" "178/5" rfl).2 ⟨178, 5⟩ (by decide)).2.1

/-- C8: with a current match, `close` flips that match's `isOpen` to false and
changes nothing else — predictions untouched, other rows untouched, no result
recorded, pointer kept — and because submission is gated only on the pointer,
a valid prediction submitted after `close` is still accepted and appears in
the match's prediction query. -/
theorem close_frame_effect (s : BotState) (mid : String)
    (hm : s.currentMatch = some mid) :
    (close true s).1 = Outcome.pollClosed ∧
    (close true s).2.currentMatch = some mid ∧
    (close true s).2.db.predictions = s.db.predictions ∧
    (∀ m ∈ s.db.matchRows, m.id = mid →
      { m with isOpen := false } ∈ (close true s).2.db.matchRows) ∧
    (∀ m ∈ s.db.matchRows, m.id ≠ mid → m ∈ (close true s).2.db.matchRows) ∧
    (close true s).2.db.matchRows.length = s.db.matchRows.length ∧
    (∀ (u un txt c : String) (sc : Score), parseScore txt = some sc →
      (predict u un txt c (close true s).2).1 = Outcome.predictionSaved ∧
      (⟨mid, u, un, sc.runs, sc.wickets, c⟩ : PredictionRow) ∈
        getPredictionsForMatch mid
          (predict u un txt c (close true s).2).2.db.predictions) := by
  rw [close_some s mid hm]
  refine ⟨rfl, rfl, rfl, ?_, ?_, ?_, ?_⟩
  · intro m hmem hid
    show _ ∈ updateMatch _ s.db.matchRows
    unfold updateMatch
    refine List.mem_map.mpr ⟨m, hmem, ?_⟩
    unfold applyPatch
    rw [if_pos hid]
    rfl
  · intro m hmem hid
    show _ ∈ updateMatch _ s.db.matchRows
    unfold updateMatch
    exact List.mem_map.mpr ⟨m, hmem, applyPatch_eq_self _ m hid⟩
  · show (updateMatch _ s.db.matchRows).length = _
    unfold updateMatch
    exact List.length_map _ _
  · intro u un txt c sc hp
    rw [predict_ok _ mid rfl u un txt c sc hp]
    refine ⟨rfl, ?_⟩
    unfold getPredictionsForMatch
    refine List.mem_filter.mpr ⟨upsert_mem _ _, by simp⟩

/-- Witness for `close_frame_effect`: closing a one-match state keeps the
pointer, and a later prediction is accepted and queryable. -/
theorem close_frame_effect_witness :
    (close true ⟨⟨[⟨"m1", "T", "bat", "V", "D", true, none, none⟩], []⟩,
        some "m1"⟩).2.currentMatch = some "m1" ∧
    (⟨"m1", "B", "userB", 175, 6, ""⟩ : PredictionRow) ∈
      getPredictionsForMatch "m1"
        (predict "B" "userB" "175/6" ""
          (close true ⟨⟨[⟨"m1", "T", "bat", "V", "D", true, none, none⟩], []⟩,
            some "m1"⟩).2).2.db.predictions := by
  refine ⟨(close_frame_effect _ "m1" rfl).2.1, ?_⟩
  exact ((close_frame_effect _ "m1" rfl).2.2.2.2.2.2 "B" "userB" "175/6" ""
    ⟨175, 6⟩ (by decide)).2

/-- C9: with a current match, `cancel` deletes that match and all its
predictions and clears the pointer, so the id no longer resolves in
`getMatchDetails` and its prediction query is empty; without a current match,
`cancel` is the no-active-match rejection and changes nothing. -/
theorem cancel_cascade (s : BotState) (mid : String)
    (hm : s.currentMatch = some mid) :
    (cancelmatch true s).1 = Outcome.matchCancelled ∧
    (cancelmatch true s).2.currentMatch = none ∧
    getMatchDetails mid (cancelmatch true s).2.db = none ∧
    getPredictionsForMatch mid (cancelmatch true s).2.db.predictions = [] ∧
    (∀ s2 : BotState, s2.currentMatch = none →
      cancelmatch true s2 = (Outcome.noActiveMatch, s2)) := by
  rw [cancelmatch_some s mid hm]
  refine ⟨rfl, rfl, ?_, ?_, fun s2 h2 => cancelmatch_noMatch s2 h2⟩
  · show getMatchDetails mid (deleteMatch mid s.db) = none
    unfold getMatchDetails deleteMatch
    have : (s.db.matchRows.filter (fun m => !(m.id = mid))).find?
        (fun m => m.id = mid) = none := by
      rw [List.find?_eq_none]
      intro m hmem
      have := (List.mem_filter.mp hmem).2
      simpa using this
    rw [this]
  · show getPredictionsForMatch mid (deleteMatch mid s.db).predictions = []
    unfold getPredictionsForMatch deleteMatch
    rw [List.filter_eq_nil_iff]
    intro p hp
    have := (List.mem_filter.mp hp).2
    simpa using this

/-- Witness for `cancel_cascade`: cancelling a populated one-match state wipes
the match and its predictions. -/
theorem cancel_cascade_witness :
    getMatchDetails "m1"
        (cancelmatch true
          ⟨⟨[⟨"m1", "T", "bat", "V", "D", true, none, none⟩],
            [⟨"m1", "A", "userA", 180, 5, ""⟩]⟩, some "m1"⟩).2.db = none ∧
    cancelmatch true (⟨⟨[], []⟩, none⟩ : BotState) =
      (Outcome.noActiveMatch, (⟨⟨[], []⟩, none⟩ : BotState)) := by
  refine ⟨(cancel_cascade _ "m1" rfl).2.2.1, ?_⟩
  exact (cancel_cascade
    ⟨⟨[⟨"m1", "T", "bat", "V", "D", true, none, none⟩],
      [⟨"m1", "A", "userA", 180, 5, ""⟩]⟩, some "m1"⟩ "m1" rfl).2.2.2.2
    ⟨⟨[], []⟩, none⟩ rfl

/-- C10: the `edit` handler is the same function as the `predict` handler —
same gating on a current match, same rejection of malformed text, same
upsert — and in particular an `edit` by a user with no prior prediction for
the match creates one by appending it. -/
theorem edit_equals_predict :
    (∀ (u un txt c : String) (s : BotState),
      editPrediction u un txt c s = predict u un txt c s) ∧
    (∀ (u un txt c : String) (s : BotState) (mid : String) (sc : Score),
      s.currentMatch = some mid → parseScore txt = some sc →
      (∀ q ∈ s.db.predictions,
        sameKey q ⟨mid, u, un, sc.runs, sc.wickets, c⟩ = false) →
      (editPrediction u un txt c s).2.db.predictions =
        s.db.predictions ++ [⟨mid, u, un, sc.runs, sc.wickets, c⟩]) := by
  constructor
  · intro u un txt c s
    rfl
  · intro u un txt c s mid sc hm hp hfresh
    rw [editPrediction_ok s mid hm u un txt c sc hp]
    exact upsert_fresh _ _ hfresh

/-- Witness for `edit_equals_predict`: an `edit` with no prior prediction
creates the row. -/
theorem edit_equals_predict_witness :
    editPrediction "A" "userA" "180/5" ""
        ⟨⟨[⟨"m1", "T", "bat", "V", "D", false, none, none⟩], []⟩, some "m1"⟩ =
      predict "A" "userA" "180/5" ""
        ⟨⟨[⟨"m1", "T", "bat", "V", "D", false, none, none⟩], []⟩, some "m1"⟩ ∧
    (editPrediction "A" "userA" "180/5" ""
        ⟨⟨[⟨"m1", "T", "bat", "V", "D", false, none, none⟩], []⟩,
          some "m1"⟩).2.db.predictions =
      [⟨"m1", "A", "userA", 180, 5, ""⟩] := by
  refine ⟨edit_equals_predict.1 "A" "userA" "180/5" "" _, ?_⟩
  exact edit_equals_predict.2 "A" "userA" "180/5" "" _ "m1" ⟨180, 5⟩ rfl
    (by decide) (by intro q hq; exact absurd hq (List.not_mem_nil q))

/-- C3: the advanced variant's `leaderboard` handler does not compute per-user
average distances at all — its accumulation adds 0 per prediction for every
user, and each displayed value is `Math.random() * 50`, independent of the
user's predictions. On the spec's own example (one user whose joined
predictions average distance 4, another averaging 2) the code's accumulated
totals are both 0 and cannot distinguish the users, while the spec-described
averages are 4 and 2. -/
theorem leaderboard_placeholder_defect :
    (∀ u : UserStats, leaderboardTotalDiff u = 0) ∧
    (∀ (r : ℚ) (u : UserStats), (leaderboardEntry r u).2 = r * 50) ∧
    specAvgDistance ⟨"A", "userA", [⟨"m1", "A", "userA", 196, 4, "", 200, 4⟩]⟩ = 4 ∧
    specAvgDistance ⟨"B", "userB", [⟨"m1", "B", "userB", 198, 4, "", 200, 4⟩]⟩ = 2 ∧
    leaderboardTotalDiff
        ⟨"A", "userA", [⟨"m1", "A", "userA", 196, 4, "", 200, 4⟩]⟩ =
      leaderboardTotalDiff
        ⟨"B", "userB", [⟨"m1", "B", "userB", 198, 4, "", 200, 4⟩]⟩ := by
  have hzero : ∀ u : UserStats, leaderboardTotalDiff u = 0 := by
    intro u
    unfold leaderboardTotalDiff
    have : ∀ (l : List PredictionWithMatch) (a : Int),
        l.foldl (fun acc _ => acc + 0) a = a := by
      intro l
      induction l with
      | nil => exact fun a => rfl
      | cons p l ih => intro a; rw [List.foldl_cons, add_zero]; exact ih a
    exact this u.predictions 0
  exact ⟨hzero, fun r u => rfl,
    by norm_num [specAvgDistance, scoreDifferenceAdv],
    by norm_num [specAvgDistance, scoreDifferenceAdv],
    (hzero _).trans (hzero _).symm⟩

end TPF
